import Mathlib

/-!
Verification of the csvsed modifier engine (src/csvsed/sed.py) through a
shallow embedding in Lean.  Strings are embedded as lists of characters,
Python exceptions as an explicit error type, and the streaming CsvFilter
as a function on the list of input rows.
-/

namespace Csvsed

/-- Python exception kinds raised by the embedded code paths.  The
interpolated values of the original messages are elided; each
constructor carries the fixed part of its message. -/
inductive PyErr where
  | invalidModifier (msg : String)
  | columnIdentifierError (msg : String)
  | typeError (msg : String)
  | attributeError (msg : String)
  | indexError (msg : String)
  | stopIteration
  | exn (msg : String)
deriving DecidableEq

deriving instance DecidableEq for Except

/-! ## Range expander: cranges (sed.py lines 254-287) -/

/-- Embedding of range(ord(a) + 1, ord(b) + 1) mapped through chr, the
characters appended for one range token.  Empty when b is not above a,
exactly as the Python range is. -/
def rangeSeg (a b : Char) : List Char :=
  (List.range' (a.toNat + 1) (b.toNat - a.toNat)).map Char.ofNat

/-- The scanning loop of cranges.  ret is the accumulated output; the
source reads the range start from ret[-1] (the last emitted character).
A dash acts as a range operator only when something was already emitted
and at least one input character follows; a backslash escapes the next
input character when one exists; otherwise the character is emitted
as-is.  The single-character case cannot start a range or an escape, so
it is always emitted literally, matching the source loop. -/
def crangesAux (ret : List Char) : List Char → List Char
  | [] => ret
  | [c] => ret ++ [c]
  | c :: d :: rest =>
    if c = '-' ∧ ret ≠ [] then
      crangesAux (ret ++ rangeSeg (ret.getLastD ' ') d) rest
    else if c = '\\' then
      crangesAux (ret ++ [d]) rest
    else
      crangesAux (ret ++ [c]) (d :: rest)

/-- Embedding of cranges (sed.py line 254). -/
def cranges (pattern : List Char) : List Char :=
  crangesAux [] pattern

/-- On input free of dashes and backslashes, the scanning loop copies its
input verbatim. -/
theorem crangesAux_plain : ∀ (s ret : List Char), '-' ∉ s → '\\' ∉ s →
    crangesAux ret s = ret ++ s
  | [], ret, _, _ => by simp [crangesAux]
  | [c], ret, _, _ => by simp [crangesAux]
  | c :: d :: rest, ret, h1, h2 => by
    have hc : c ≠ '-' := fun h => h1 (by simp [h])
    have hcb : c ≠ '\\' := fun h => h2 (by simp [h])
    have h1' : '-' ∉ d :: rest := fun h => h1 (List.mem_cons_of_mem _ h)
    have h2' : '\\' ∉ d :: rest := fun h => h2 (List.mem_cons_of_mem _ h)
    rw [crangesAux]
    simp only [hc, hcb, false_and, if_false, if_neg hcb]
    rw [crangesAux_plain (d :: rest) (ret ++ [c]) h1' h2']
    simp

/-- C9 as stated is false: a dash-free pattern of three backslashes
expands to two backslashes, which expand again to one, so the expander
is not idempotent on every dash-free input. -/
theorem claim9_counterexample :
    '-' ∉ ['\\', '\\', '\\'] ∧
    cranges (cranges ['\\', '\\', '\\']) ≠ cranges ['\\', '\\', '\\'] := by
  decide

/-- C9 (amended): for every range string that contains neither a dash
nor a backslash, the expander returns it unchanged, hence is idempotent
on it. -/
theorem claim9_cranges_idempotent (s : List Char) (h1 : '-' ∉ s) (h2 : '\\' ∉ s) :
    cranges (cranges s) = cranges s := by
  unfold cranges
  rw [crangesAux_plain s [] h1 h2]
  simp only [List.nil_append]
  rw [crangesAux_plain s [] h1 h2]
  simp

/-- C9 witness: the amended theorem applied at a concrete dash-free,
backslash-free input. -/
theorem claim9_witness : cranges (cranges ['a', 'b', 'c']) = cranges ['a', 'b', 'c'] :=
  claim9_cranges_idempotent ['a', 'b', 'c'] (by decide) (by decide)

/-- C10 as stated is false: on the descending range z-a the expander
does not fail with an ordering error; it returns the start character
alone, silently consuming the dash and the endpoint. -/
theorem claim10_counterexample : cranges ['z', '-', 'a'] = ['z'] := by
  decide

/-- C10 (amended): a descending (or equal) range token contributes no
characters beyond its start character: the expander succeeds and the
dash and endpoint are consumed without appending anything. -/
theorem claim10_descending_range (a b : Char) (ha : a ≠ '-') (hb : a ≠ '\\')
    (hle : b.toNat ≤ a.toNat) :
    cranges [a, '-', b] = [a] := by
  unfold cranges crangesAux
  simp only [ha, false_and, if_false, if_neg hb]
  unfold crangesAux
  simp [crangesAux, rangeSeg, Nat.sub_eq_zero_of_le hle]

/-- C10 witness: the amended theorem applied at the concrete descending
range c-a. -/
theorem claim10_witness : cranges ['c', '-', 'a'] = ['c'] :=
  claim10_descending_range 'c' 'a' (by decide) (by decide) (by decide)

/-! ## Shared modifier parsing: Modifier.__init__ (sed.py lines 169-207) -/

/-- Embedding of the Python str.split method for a single-character
separator: splitting the empty string gives one empty part, and every
separator occurrence starts a new part. -/
def pySplit (sep : Char) : List Char → List (List Char)
  | [] => [[]]
  | c :: rest =>
    let r := pySplit sep rest
    if c = sep then [] :: r
    else
      match r with
      | [] => [[c]]
      | h :: t => (c :: h) :: t

/-- Embedding of Modifier.__init__: computes the expected part count
from the slash count of the form string, checks the minimum length,
splits on the separator found at position 1, rejects a wrong part
count, an empty left-hand side, and any unsupported flag, and returns
the left-hand side, right-hand side and flags segments.  The
right-hand side and flags positions depend on whether the modifier
type character is e, exactly as in the source. -/
def Modifier_init (modifier_form : List Char) (supported_flags : List Char)
    (modifier : List Char) : Except PyErr (List Char × List Char × List Char) :=
  let modifier_length := (modifier_form.filter (fun c => c = '/')).length + 1
  if modifier.length < modifier_length then
    .error (.invalidModifier ("modifier is too short"))
  else
    match modifier with
    | modifier_type :: modifier_sep :: _ =>
      let modifier_parts := pySplit modifier_sep modifier
      if modifier_parts.length ≠ modifier_length then
        .error (.invalidModifier ("expected modifier of the form"))
      else
        let modifier_lhs := (modifier_parts.get? 1).getD []
        if modifier_lhs = [] then
          .error (.invalidModifier ("no previous regular expression"))
        else
          let modifier_rhs :=
            if modifier_type ≠ 'e' then (modifier_parts.get? 2).getD [] else []
          let flags :=
            if modifier_type ≠ 'e' then (modifier_parts.get? 3).getD []
            else (modifier_parts.get? 2).getD []
          match flags.find? (fun f => !supported_flags.contains f) with
          | some _ => .error (.invalidModifier ("invalid flag"))
          | none => .ok (modifier_lhs, modifier_rhs, flags)
    | _ => .error (.invalidModifier ("modifier is too short"))

/-! ## Transliteration: Y_modifier (sed.py lines 290-322) -/

/-- Python values fed to the percent-format operator at the Y_modifier
length-mismatch raise site. -/
inductive PyVal where
  | vstr (s : List Char)
  | vint (n : Int)

/-- Embedding of one percent-format conversion: the i conversion
requires a number and raises TypeError on a string; the s conversion
accepts anything. -/
def formatConv : Char → PyVal → Except PyErr (List Char)
  | 'i', .vint n => .ok (toString n).data
  | 'i', .vstr _ => .error (.typeError ("int argument required, got str"))
  | 's', .vstr s => .ok s
  | 's', .vint n => .ok (toString n).data
  | _, _ => .error (.typeError ("unsupported format conversion"))

/-- Embedding of the message construction at the Y_modifier
length-mismatch raise site (sed.py line 313): the format string
applies the i conversion to the expanded source and destination
strings themselves, not to their lengths, so building the message
raises TypeError before InvalidModifier can be raised. -/
def y_length_error_message (src dst modifier : List Char) : Except PyErr String := do
  let a ← formatConv 'i' (.vstr src)
  let b ← formatConv 'i' (.vstr dst)
  let c ← formatConv 's' (.vstr modifier)
  .ok (String.mk (("expecting source and destination to have the same length, but ".data)
        ++ a ++ (" != ".data) ++ b ++ (", got ".data) ++ c))

/-- The transliteration operator: its mapping table, a Python dict
built from zipping source onto destination, embedded as the zip list
with later entries overriding earlier ones on lookup. -/
structure YMod where
  table : List (Char × Char)
deriving DecidableEq

/-- Python dict lookup for a dict built from an association list by
successive insertion: the last binding of a key wins. -/
def pyDictGet : List (Char × Char) → Char → Option Char
  | [], _ => none
  | p :: rest, k =>
    match pyDictGet rest k with
    | some v => some v
    | none => if p.1 = k then some p.2 else none

/-- Embedding of Y_modifier.__init__: parse through the shared
initializer with form s/SRC/DST/FLAGS and the single supported flag i,
expand both sides through cranges, fail on a length mismatch (where
the source crashes building the message, see y_length_error_message),
extend to both cases under the i flag, and zip the table. -/
def Y_modifier (modifier : List Char) : Except PyErr YMod := do
  let (lhs, rhs, flags) ← Modifier_init ("s/SRC/DST/FLAGS".data) ['i'] modifier
  let src := cranges lhs
  let dst := cranges rhs
  if src.length ≠ dst.length then
    match y_length_error_message src dst modifier with
    | .error e => .error e
    | .ok msg => .error (.invalidModifier msg)
  else
    let src2 := if flags.contains 'i' then src.map Char.toLower ++ src.map Char.toUpper else src
    let dst2 := if flags.contains 'i' then dst ++ dst else dst
    .ok { table := src2.zip dst2 }

/-- Embedding of Y_modifier.__call__: the str.translate method maps
each character through the table, leaving unmapped characters
unchanged. -/
def Y_call (y : YMod) (value : List Char) : List Char :=
  value.map (fun c => (pyDictGet y.table c).getD c)

/-- Parse a transliterate modifier and apply it to a value; none when
parsing fails. -/
def Y_apply (spec value : List Char) : Option (List Char) :=
  (Y_modifier spec).toOption.map (fun y => Y_call y value)

/-- C2: a successfully parsed transliterate operator maps each
character through its table when present and leaves every other
character unchanged, so the output has exactly the same number of
characters as the input; concretely y/abc/def/ sends b,a,c to e,d,f
and y/abc/def/i sends b,A,C to e,d,f. -/
theorem claim2_transliterate :
    (∀ (s : List Char) (y : YMod) (v : List Char), Y_modifier s = .ok y →
        (Y_call y v).length = v.length ∧
        ∀ i : Nat, (Y_call y v).get? i = (v.get? i).map (fun c =>
          match pyDictGet y.table c with
          | some d => d
          | none => c))
  ∧ Y_apply ("y/abc/def/".data) ("b,a,c".data) = some ("e,d,f".data)
  ∧ Y_apply ("y/abc/def/i".data) ("b,A,C".data) = some ("e,d,f".data) := by
  refine ⟨fun s y v _ => ⟨List.length_map _ _, fun i => ?_⟩, by decide, by decide⟩
  rw [Y_call, List.get?_map]
  cases v.get? i with
  | none => rfl
  | some c =>
    simp only [Option.map_some']
    cases pyDictGet y.table c with
    | none => rfl
    | some d => rfl

/-- C2 witness: the per-value clauses of the theorem applied to the
concretely parsed operator y/abc/def/ on the value b,a,c. -/
theorem claim2_witness :
    (Y_call ⟨[('a', 'd'), ('b', 'e'), ('c', 'f')]⟩ ("b,a,c".data)).length
        = ("b,a,c".data).length ∧
    ∀ i : Nat, (Y_call ⟨[('a', 'd'), ('b', 'e'), ('c', 'f')]⟩ ("b,a,c".data)).get? i
        = (("b,a,c".data).get? i).map (fun c =>
            match pyDictGet [('a', 'd'), ('b', 'e'), ('c', 'f')] c with
            | some d => d
            | none => c) :=
  claim2_transliterate.1 ("y/abc/def/".data) ⟨[('a', 'd'), ('b', 'e'), ('c', 'f')]⟩
    ("b,a,c".data) (by decide)

/-- C7: on a transliterate specification whose expanded source and
destination lengths differ, the source intends to raise
InvalidModifier, but the message formatting applies the integer
conversion to the expanded source string itself, so the code raises
TypeError instead; evaluated here at the failing input y/ab/c/. -/
theorem claim7_length_mismatch_typeerror :
    Y_modifier ("y/ab/c/".data) = .error (.typeError ("int argument required, got str")) := by
  decide

/-! ## External execution: E_modifier (sed.py lines 325-346) -/

/-- The execute operator: the stored shell command. -/
structure EMod where
  command : List Char
deriving DecidableEq

/-- Embedding of E_modifier.__init__: parse through the shared
initializer with form s/PROGRAM+OPTIONS/ and no supported flag, then
store the left-hand side as the command. -/
def E_modifier (modifier : List Char) : Except PyErr EMod := do
  let (lhs, _rhs, _flags) ← Modifier_init ("s/PROGRAM+OPTIONS/".data) [] modifier
  .ok { command := lhs }

/-- Embedding of the Python str.rstrip method for the newline
character: drops every trailing newline. -/
def pyRstripNl (s : List Char) : List Char :=
  (s.reverse.dropWhile (fun c => c == '\n')).reverse

/-- Embedding of E_modifier.__call__ with the outcome of the external
process (captured standard output, captured error stream, return code)
passed explicitly: a nonzero return code raises, and on success the
captured output is returned with rstrip applied for newlines. -/
def E_call (m : EMod) (out err : List Char) (returncode : Int) : Except PyErr (List Char) :=
  if returncode ≠ 0 then
    .error (.exn ("command failed"))
  else
    .ok (pyRstripNl out)

/-- Modelled from the spec: trim exactly one trailing newline if one is
present. -/
def trimOneNl (s : List Char) : List Char :=
  match s.reverse with
  | '\n' :: rest => rest.reverse
  | _ => s

/-- C8 as stated is false: on a captured output ending in two newlines
the operator does not keep all but the last one; rstrip removes both,
so the result differs from the single-newline trim the claim
describes. -/
theorem claim8_counterexample :
    E_call ⟨("cat".data)⟩ ("a\n\n".data) [] 0 ≠ .ok (trimOneNl ("a\n\n".data)) := by
  decide

/-- The first element of dropWhile does not satisfy the predicate. -/
theorem head_dropWhile_not {α : Type} (p : α → Bool) :
    ∀ (l : List α) (x : α), (l.dropWhile p).head? = some x → p x = false
  | [], x, h => by simp [List.dropWhile] at h
  | c :: rest, x, h => by
    rw [List.dropWhile] at h
    cases hc : p c with
    | true =>
      simp only [hc] at h
      exact head_dropWhile_not p rest x h
    | false =>
      simp only [hc, List.head?_cons, Option.some_inj] at h
      rwa [h] at hc

/-- C8 (amended): on a zero return code the operator returns the
captured standard output with every trailing newline removed: the
output decomposes as the returned value followed by some number of
newlines, and the returned value does not end in a newline. -/
theorem claim8_rstrip_all_newlines (m : EMod) (out err : List Char) :
    ∃ (res : List Char) (k : Nat),
      E_call m out err 0 = .ok res ∧
      out = res ++ List.replicate k '\n' ∧
      res.getLast? ≠ some '\n' := by
  refine ⟨pyRstripNl out, (out.reverse.takeWhile (fun c => c == '\n')).length,
    by simp [E_call], ?_, ?_⟩
  · have hsplit := List.takeWhile_append_dropWhile (p := fun c => c == '\n') (l := out.reverse)
    have htw : out.reverse.takeWhile (fun c => c == '\n')
        = List.replicate (out.reverse.takeWhile (fun c => c == '\n')).length '\n' := by
      apply List.eq_replicate_of_mem
      intro b hb
      have := List.mem_takeWhile_imp hb
      simpa using this
    have hrev : (out.reverse.takeWhile (fun c => c == '\n')).reverse
        = List.replicate (out.reverse.takeWhile (fun c => c == '\n')).length '\n' := by
      conv_lhs => rw [htw]
      rw [List.reverse_replicate]
    calc out = out.reverse.reverse := (List.reverse_reverse out).symm
      _ = (out.reverse.takeWhile (fun c => c == '\n')
            ++ out.reverse.dropWhile (fun c => c == '\n')).reverse := by rw [hsplit]
      _ = pyRstripNl out ++ (out.reverse.takeWhile (fun c => c == '\n')).reverse := by
            rw [List.reverse_append]; rfl
      _ = pyRstripNl out ++ List.replicate (out.reverse.takeWhile (fun c => c == '\n')).length '\n' := by
            rw [hrev]
  · intro h
    have h' : (out.reverse.dropWhile (fun c => c == '\n')).head? = some '\n' := by
      rw [pyRstripNl, List.getLast?_reverse] at h
      exact h
    have := head_dropWhile_not (fun c => c == '\n') _ _ h'
    simp at this

/-! ## Column resolver: standardize_modifiers (sed.py lines 117-142)

The modifier values are taken to be already-callable modifiers, on
which modifier_as_function is the identity, so they pass through value
conversion unchanged; their type is abstract below.  Dict keys are
Python ints or strings, embedded as a sum; dict iteration follows the
entry list order. -/

/-- The two permitted shapes of the modifiers argument: a keyed
dictionary or a plain sequence. -/
inductive PyModifiers (μ : Type) where
  | dict (entries : List (Sum Nat String × μ))
  | seq (entries : List μ)

/-- The iteration over the rebuilt modifier dict: an int key is kept;
a string key found among the column names is translated to its first
position, but only after checking that this position is not itself an
int key of the original dict, in which case ColumnIdentifierError is
raised; a string key not among the column names is kept.  allMods is
the original dict, against whose keys the collision check runs. -/
def standardizeLoop {μ : Type} (names : List String)
    (allMods : List (Sum Nat String × μ)) :
    List (Sum Nat String × μ) → Except PyErr (List (Sum Nat String × μ))
  | [] => .ok []
  | (Sum.inl n, v) :: rest => do
    let r ← standardizeLoop names allMods rest
    .ok ((Sum.inl n, v) :: r)
  | (Sum.inr s, v) :: rest =>
    if s ∈ names then
      let idx := names.indexOf s
      if allMods.any (fun p => decide (p.1 = Sum.inl idx)) then
        .error (.columnIdentifierError ("column has an index which already has a pattern"))
      else do
        let r ← standardizeLoop names allMods rest
        .ok ((Sum.inl idx, v) :: r)
    else do
      let r ← standardizeLoop names allMods rest
      .ok ((Sum.inr s, v) :: r)

/-- Embedding of standardize_modifiers.  For a dict the values are
converted (identity on callables) and, when column_names is None or
empty (Python falsiness of the early return), the dict is returned
as-is, string keys included; otherwise the translation loop runs.  For
a plain sequence, the items call raises AttributeError, which the
handler catches, but the handler itself immediately calls values on
the same sequence, raising AttributeError again, this time uncaught. -/
def standardize_modifiers {μ : Type} (column_names : Option (List String)) :
    PyModifiers μ → Except PyErr (List (Sum Nat String × μ))
  | .dict entries =>
    match column_names with
    | none => .ok entries
    | some names =>
      if names = [] then .ok entries
      else standardizeLoop names entries entries
  | .seq _ => .error (.attributeError ("list object has no attribute values"))

/-- Processing any entry list that still contains a string key whose
resolved position is an int key of the original dict ends in
ColumnIdentifierError. -/
theorem standardizeLoop_collision {μ : Type} (names : List String)
    (allMods : List (Sum Nat String × μ)) (s : String) (b : μ) :
    ∀ (todo : List (Sum Nat String × μ)), (Sum.inr s, b) ∈ todo → s ∈ names →
    allMods.any (fun p => decide (p.1 = Sum.inl (names.indexOf s))) = true →
    standardizeLoop names allMods todo
      = .error (.columnIdentifierError ("column has an index which already has a pattern"))
  | [], hmem, _, _ => by simp at hmem
  | (Sum.inl n, v) :: rest, hmem, hs, hany => by
    have htail : (Sum.inr s, b) ∈ rest := by
      rcases List.mem_cons.mp hmem with heq | htail
      · exact absurd (congrArg Prod.fst heq) (by simp)
      · exact htail
    have ih := standardizeLoop_collision names allMods s b rest htail hs hany
    rw [standardizeLoop, ih]
    rfl
  | (Sum.inr s', v) :: rest, hmem, hs, hany => by
    rw [standardizeLoop]
    by_cases heq : s' = s
    · subst heq
      simp only [hs, if_pos, hany, if_true]
    · have htail : (Sum.inr s, b) ∈ rest := by
        rcases List.mem_cons.mp hmem with h | htail
        · exact absurd (congrArg Prod.fst h) (by simp; exact fun h2 => heq h2.symm)
        · exact htail
      have ih := standardizeLoop_collision names allMods s b rest htail hs hany
      by_cases hs' : s' ∈ names
      · simp only [hs', if_pos]
        by_cases hcol : allMods.any (fun p => decide (p.1 = Sum.inl (names.indexOf s'))) = true
        · simp only [hcol, if_true]
        · simp only [eq_false_of_ne_true hcol, if_false, ih]; rfl
      · simp only [hs', if_neg, if_false, ih]; rfl

/-- C4: a modifier dict holding both the int key k and a header name
whose first position among the column names is k makes column
resolution fail with ColumnIdentifierError, never silently overwriting
one entry with the other. -/
theorem claim4_name_index_collision {μ : Type} (names : List String)
    (entries : List (Sum Nat String × μ)) (k : Nat) (s : String) (a b : μ)
    (hka : (Sum.inl k, a) ∈ entries) (hsb : (Sum.inr s, b) ∈ entries)
    (hs : s ∈ names) (hidx : names.indexOf s = k) :
    standardize_modifiers (some names) (.dict entries)
      = .error (.columnIdentifierError ("column has an index which already has a pattern")) := by
  have hne : names ≠ [] := by
    intro h
    rw [h] at hs
    simp at hs
  rw [standardize_modifiers]
  simp only [hne, if_neg, if_false]
  apply standardizeLoop_collision names entries s b entries hsb hs
  rw [List.any_eq_true]
  exact ⟨(Sum.inl k, a), hka, by simp [hidx]⟩

/-- C4 witness: the theorem applied to the header list h and the dict
with int key 0 and name key h, which resolves to position 0. -/
theorem claim4_witness :
    standardize_modifiers (μ := Nat) (some ["h"]) (.dict [(Sum.inl 0, 1), (Sum.inr ("h"), 2)])
      = .error (.columnIdentifierError ("column has an index which already has a pattern")) :=
  claim4_name_index_collision ["h"] [(Sum.inl 0, 1), (Sum.inr ("h"), 2)] 0 ("h") 1 2
    (by simp) (by simp) (by simp) (by decide)

/-- C5 as the claim states it is false against the code, and the code
contradicts its own docstring: for a plain sequence of modifiers the
fallback branch calls the values method on the sequence, which raises
AttributeError for every sequence instead of assigning the n-th
modifier to column n. -/
theorem claim5_sequence_raises {μ : Type} (column_names : Option (List String))
    (entries : List μ) :
    standardize_modifiers column_names (.seq entries)
      = .error (.attributeError ("list object has no attribute values")) := by
  rw [standardize_modifiers]

/-- C6 as stated is false: with no header configured, a dict holding a
string key is returned as-is by the early return on falsy column
names; resolution returns a mapping instead of propagating an
identifier error. -/
theorem claim6_counterexample :
    standardize_modifiers (μ := Nat) none (.dict [(Sum.inr ("name"), 5)])
      = .ok [(Sum.inr ("name"), 5)] := rfl

/-- C6 (amended): with no header configured, column resolution
succeeds and returns the modifier dictionary unchanged, its string
keys left unresolved; the misconfiguration only surfaces later, when a
string key is used to index a row. -/
theorem claim6_no_header_returns_dict {μ : Type} (entries : List (Sum Nat String × μ)) :
    standardize_modifiers none (.dict entries) = .ok entries := rfl

/-! ## Row filter: CsvFilter (sed.py lines 36-114) -/

/-- Embedding of the per-row modifier application loop of
CsvFilter.next: each mapped column index is read (raising IndexError
when out of range, as Python list indexing does) and replaced by the
modifier result. -/
def applyRow {σ : Type} : List (Nat × (σ → σ)) → List σ → Except PyErr (List σ)
  | [], row => .ok row
  | (col, f) :: rest, row =>
    match row.get? col with
    | none => .error (.indexError ("list index out of range"))
    | some x => applyRow rest (row.set col (f x))

/-- Embedding of the CsvFilter stream over a finite list of input
rows, with the resolved int-keyed column mapping.  With header
configured, the constructor pulls the first row (StopIteration on an
empty source) and the first next call returns it unmodified; every
further row passes through the modifier loop. -/
def csvFilterRows {σ : Type} (header : Bool) (mods : List (Nat × (σ → σ)))
    (rows : List (List σ)) : Except PyErr (List (List σ)) :=
  if header then
    match rows with
    | [] => .error .stopIteration
    | hdr :: rest => (rest.mapM (applyRow mods)).map (fun out => hdr :: out)
  else
    rows.mapM (applyRow mods)

/-- The output row agrees with the input row everywhere outside the
mapped column indices and has the same length. -/
def rowAgrees {σ : Type} (keys : List Nat) (r r' : List σ) : Prop :=
  r'.length = r.length ∧ ∀ j : Nat, j ∉ keys → r'.get? j = r.get? j

/-- When every mapped column is in range, the modifier loop succeeds
and only the mapped columns can change. -/
theorem applyRow_ok {σ : Type} :
    ∀ (mods : List (Nat × (σ → σ))) (row : List σ),
    (∀ p ∈ mods, p.1 < row.length) →
    ∃ r', applyRow mods row = .ok r' ∧ rowAgrees (mods.map Prod.fst) row r'
  | [], row, _ => ⟨row, rfl, rfl, fun _ _ => rfl⟩
  | (col, f) :: rest, row, hb => by
    have hcol : col < row.length := hb (col, f) (List.mem_cons_self ..)
    have hget : row.get? col = some (row.get ⟨col, hcol⟩) := List.get?_eq_get hcol
    have hb' : ∀ p ∈ rest, p.1 < (row.set col (f (row.get ⟨col, hcol⟩))).length := by
      intro p hp
      rw [List.length_set]
      exact hb p (List.mem_cons_of_mem _ hp)
    obtain ⟨r', hr', hlen, hout⟩ := applyRow_ok rest (row.set col (f (row.get ⟨col, hcol⟩))) hb'
    refine ⟨r', ?_, ?_, ?_⟩
    · rw [applyRow, hget]
      exact hr'
    · rw [hlen, List.length_set]
    · intro j hj
      rw [List.map_cons, List.mem_cons] at hj
      push_neg at hj
      rw [hout j hj.2, List.get?_set_ne _ _ (fun h => hj.1 h.symm)]

/-- C3 as stated is false: with a column mapping naming an index that
is out of range for a row, the filter raises IndexError on that row
instead of yielding one output row per input row. -/
theorem claim3_counterexample :
    csvFilterRows false [(1, fun s => s)] [[""]]
      = .error (.indexError ("list index out of range")) := by
  rfl

/-- When every mapped column is in range for every processed row, the
mapM over the rows succeeds rowwise. -/
theorem mapM_applyRow_ok {σ : Type} (mods : List (Nat × (σ → σ))) :
    ∀ (rows : List (List σ)),
    (∀ p ∈ mods, ∀ r ∈ rows, p.1 < r.length) →
    ∃ out, rows.mapM (applyRow mods) = .ok out ∧
      List.Forall₂ (rowAgrees (mods.map Prod.fst)) rows out
  | [], _ => ⟨[], rfl, List.Forall₂.nil⟩
  | r :: rs, hb => by
    obtain ⟨r', hr', hag⟩ := applyRow_ok mods r (fun p hp => hb p hp r (List.mem_cons_self ..))
    obtain ⟨out, hout, hfa⟩ := mapM_applyRow_ok mods rs
      (fun p hp row hrow => hb p hp row (List.mem_cons_of_mem _ hrow))
    refine ⟨r' :: out, ?_, List.Forall₂.cons hag hfa⟩
    rw [List.mapM_cons, hr', hout]
    rfl

/-- C3 (amended): provided every column index of the mapping is in
range for every data row, the filter yields exactly one output row per
input row in order, each output row differing from its input row only
at mapped column indices, and with a configured header the first row
is emitted entirely unmodified. -/
theorem claim3_row_filter {σ : Type} :
    (∀ (mods : List (Nat × (σ → σ))) (rows : List (List σ)),
        (∀ p ∈ mods, ∀ r ∈ rows, p.1 < r.length) →
        ∃ out, csvFilterRows false mods rows = .ok out ∧
          out.length = rows.length ∧
          List.Forall₂ (rowAgrees (mods.map Prod.fst)) rows out)
  ∧ (∀ (mods : List (Nat × (σ → σ))) (hdr : List σ) (rest : List (List σ)),
        (∀ p ∈ mods, ∀ r ∈ rest, p.1 < r.length) →
        ∃ out, csvFilterRows true mods (hdr :: rest) = .ok out ∧
          out.head? = some hdr ∧
          out.length = rest.length + 1 ∧
          List.Forall₂ (rowAgrees (mods.map Prod.fst)) rest out.tail) := by
  constructor
  · intro mods rows hb
    obtain ⟨out, hout, hfa⟩ := mapM_applyRow_ok mods rows hb
    exact ⟨out, hout, hfa.length_eq.symm, hfa⟩
  · intro mods hdr rest hb
    obtain ⟨out, hout, hfa⟩ := mapM_applyRow_ok mods rest hb
    refine ⟨hdr :: out, ?_, rfl, ?_, hfa⟩
    · rw [csvFilterRows]
      simp only [if_true]
      rw [hout]
      rfl
    · simp [hfa.length_eq.symm]

/-- C3 witness: the amended theorem applied to a concrete two-column
stream with a header and a mapping on column 0. -/
theorem claim3_witness :
    ∃ out, csvFilterRows true [(0, fun _ : String => "x")] [["h1", "h2"], ["a", "b"]]
        = .ok out ∧
      out.head? = some ["h1", "h2"] ∧
      out.length = 1 + 1 ∧
      List.Forall₂ (rowAgrees ([(0, fun _ : String => "x")].map Prod.fst))
        [["a", "b"]] out.tail :=
  claim3_row_filter.2 [(0, fun _ : String => "x")] ["h1", "h2"] [["a", "b"]]
    (by intro p hp r hr; simp at hp hr; rw [hp, hr]; decide)

/-! ## Substitution: S_modifier (sed.py lines 210-251)

The source delegates pattern matching to the external re library.  We
model the fragment of that collaborator that the claim exercises:
patterns that are plain sequences of literal characters and dots (no
other metacharacter), replacements without backslash escapes, and flag
sets whose only member is g (which re.compile ignores: getattr(re,
"G", 0) is 0).  On such patterns every match has the fixed length of
the pattern and re.sub scans left to right replacing non-overlapping
matches up to its count.  Outside this fragment the embedding returns
none rather than guessing. -/

/-- A fixed-width regex atom: a dot (any character except newline) or
a literal character. -/
inductive Atom where
  | dot
  | lit (c : Char)
deriving DecidableEq

/-- Whether an atom matches one character: a dot matches everything
but a newline, a literal only itself. -/
def atomMatches : Atom → Char → Bool
  | .dot, c => c != '\n'
  | .lit a, c => a == c

/-- Whether the atom sequence matches a prefix of the character
list. -/
def matchesAt : List Atom → List Char → Bool
  | [], _ => true
  | _ :: _, [] => false
  | a :: ps, c :: cs => atomMatches a c && matchesAt ps cs

/-- Regex metacharacters other than the dot; a pattern holding any of
these is outside the modeled fragment.  The character class brackets
are written by code point. -/
def isRegexMeta (c : Char) : Bool :=
  ['\\', '^', '$', '*', '+', '?', '[', ']', '(', ')', '|'].contains c
    || c.toNat == 123 || c.toNat == 125

/-- Model of re.compile on the modeled fragment: with no
semantics-affecting flag and no metacharacter, each pattern character
compiles to one atom; none outside the fragment. -/
def compileFragment (flags pat : List Char) : Option (List Atom) :=
  if pat.any isRegexMeta then none
  else if flags.any (fun f => f != 'g') then none
  else some (pat.map (fun c => if c = '.' then Atom.dot else Atom.lit c))

/-- The substitution operator: compiled pattern, replacement, flags
segment, and the count passed to re.sub (0 meaning all occurrences,
from the g flag, else 1). -/
structure SMod where
  regex : List Atom
  repl : List Char
  modifier_flags : List Char
  count : Nat
deriving DecidableEq

/-- Embedding of S_modifier.__init__ on the modeled regex fragment:
parse through the shared initializer with form s/EXPR/REPL/FLAGS and
the seven supported flags, compile the left-hand side, and derive count
from the g flag; ok none when the pattern, replacement or flags fall
outside the modeled fragment of the re collaborator. -/
def S_modifier (modifier : List Char) : Except PyErr (Option SMod) :=
  match Modifier_init ("s/EXPR/REPL/FLAGS".data)
      ['i', 'g', 'l', 'm', 's', 'u', 'x'] modifier with
  | .error e => .error e
  | .ok (lhs, rhs, flags) =>
    match compileFragment flags lhs with
    | none => .ok none
    | some pat =>
      if rhs.contains '\\' then .ok none
      else .ok (some { regex := pat, repl := rhs, modifier_flags := flags,
                       count := if flags.contains 'g' then 0 else 1 })

/-- Budget decrement for the scan: some n counts remaining
replacements, none is unlimited (count 0). -/
def decBudget : Option Nat → Option Nat
  | none => none
  | some n => some (n - 1)

/-- The re.sub scanning loop on the modeled fragment, with fuel: at
each position, if replacements remain and the pattern matches here,
emit the replacement and continue after the match; otherwise copy one
character.  A fuel of the value length always suffices because every
step consumes at least one character. -/
def subScanF (p : List Atom) (r : List Char) : Nat → Option Nat → List Char → List Char
  | 0, _, cs => cs
  | _ + 1, _, [] => []
  | fuel + 1, remaining, c :: cs =>
    if remaining ≠ some 0 ∧ matchesAt p (c :: cs) = true then
      r ++ subScanF p r fuel (decBudget remaining) ((c :: cs).drop p.length)
    else
      c :: subScanF p r fuel remaining cs

/-- Embedding of re.Pattern.sub restricted to the modeled fragment:
count 0 replaces every non-overlapping match, count n at most n. -/
def pySub (p : List Atom) (r : List Char) (count : Nat) (cs : List Char) : List Char :=
  subScanF p r cs.length (if count = 0 then none else some count) cs

/-- Embedding of S_modifier.__call__. -/
def S_call (m : SMod) (value : List Char) : List Char :=
  pySub m.regex m.repl m.count value

/-- Parse a substitute modifier and apply it to a value; none when
parsing fails or the modifier is outside the modeled fragment. -/
def S_apply (spec value : List Char) : Option (List Char) :=
  match S_modifier spec with
  | .ok (some m) => some (S_call m value)
  | _ => none

/-- Modelled from the spec: the start position of the leftmost match
of the pattern, if any. -/
def findFirst (p : List Atom) : List Char → Option Nat
  | [] => if matchesAt p [] then some 0 else none
  | c :: cs =>
    if matchesAt p (c :: cs) then some 0
    else (findFirst p cs).map (fun i => i + 1)

/-- Modelled from the spec: replace exactly the first match of the
pattern with the replacement, returning the value unchanged when there
is no match. -/
def replaceFirst (p : List Atom) (r : List Char) (cs : List Char) : List Char :=
  match findFirst p cs with
  | none => cs
  | some i => cs.take i ++ r ++ cs.drop (i + p.length)

/-- Modelled from the spec: replace every non-overlapping match,
leftmost first, each next search resuming after the previous match;
with fuel, for which the value length always suffices on nonempty
patterns. -/
def replaceAllF (p : List Atom) (r : List Char) : Nat → List Char → List Char
  | 0, cs => cs
  | fuel + 1, cs =>
    match findFirst p cs with
    | none => cs
    | some i => cs.take i ++ r ++ replaceAllF p r fuel (cs.drop (i + p.length))

/-- Modelled from the spec: replace all non-overlapping matches. -/
def replaceAll (p : List Atom) (r : List Char) (cs : List Char) : List Char :=
  replaceAllF p r cs.length cs

/-! ### Equivalence of the scanning loop with the spec-side
replace-first and replace-all functions -/

/-- With an exhausted budget the scan copies its input. -/
theorem subScanF_zero (p : List Atom) (r : List Char) :
    ∀ (fuel : Nat) (cs : List Char), subScanF p r fuel (some 0) cs = cs
  | 0, _ => rfl
  | _ + 1, [] => rfl
  | fuel + 1, c :: cs => by
    rw [subScanF, if_neg (by simp)]
    rw [subScanF_zero p r fuel cs]

/-- A nonempty pattern has no match in the empty value. -/
theorem findFirst_nil (a : Atom) (ps : List Atom) : findFirst (a :: ps) [] = none := rfl

/-- Replace-first on a value whose head starts a match. -/
theorem replaceFirst_cons_pos (p : List Atom) (r : List Char) (c : Char) (cs : List Char)
    (h : matchesAt p (c :: cs) = true) :
    replaceFirst p r (c :: cs) = r ++ (c :: cs).drop p.length := by
  rw [replaceFirst, findFirst, if_pos h]
  simp

/-- Replace-first skips a head position where the pattern does not
match. -/
theorem replaceFirst_cons_neg (p : List Atom) (r : List Char) (c : Char) (cs : List Char)
    (h : matchesAt p (c :: cs) = false) :
    replaceFirst p r (c :: cs) = c :: replaceFirst p r cs := by
  rw [replaceFirst, replaceFirst, findFirst, if_neg (by simp [h])]
  cases hf : findFirst p cs with
  | none => simp
  | some i =>
    simp only [Option.map_some']
    have hidx : i + 1 + p.length = (i + p.length) + 1 := by omega
    rw [List.take_succ_cons, hidx, List.drop_succ_cons]
    simp

/-- The scan with budget one computes the spec-side replace-first. -/
theorem subScanF_one (a : Atom) (ps : List Atom) (r : List Char) :
    ∀ (fuel : Nat) (cs : List Char), cs.length ≤ fuel →
    subScanF (a :: ps) r fuel (some 1) cs = replaceFirst (a :: ps) r cs
  | 0, cs, h => by
    have hnil : cs = [] := List.eq_nil_of_length_eq_zero (Nat.le_zero.mp h)
    subst hnil
    rfl
  | _ + 1, [], _ => rfl
  | fuel + 1, c :: cs, h => by
    by_cases hm : matchesAt (a :: ps) (c :: cs) = true
    · rw [subScanF, if_pos ⟨by simp, hm⟩, replaceFirst_cons_pos _ _ _ _ hm]
      rw [show decBudget (some 1) = some 0 from rfl, subScanF_zero]
    · have hm' := eq_false_of_ne_true hm
      rw [subScanF, if_neg (by simp [hm'])]
      rw [subScanF_one a ps r fuel cs (by simp at h; omega)]
      rw [replaceFirst_cons_neg _ _ _ _ hm']

/-- Replace-all leaves the empty value empty for a nonempty
pattern. -/
theorem replaceAllF_nil (a : Atom) (ps : List Atom) (r : List Char) :
    ∀ fuel : Nat, replaceAllF (a :: ps) r fuel [] = []
  | 0 => rfl
  | _ + 1 => rfl

/-- Replace-all is the identity on a value without a match. -/
theorem replaceAllF_no_match (p : List Atom) (r : List Char) (cs : List Char)
    (h : findFirst p cs = none) : ∀ fuel : Nat, replaceAllF p r fuel cs = cs
  | 0 => rfl
  | fuel + 1 => by rw [replaceAllF, h]

/-- Any two sufficient fuels give replace-all the same value. -/
theorem replaceAllF_irrel (a : Atom) (ps : List Atom) (r : List Char) :
    ∀ (f1 f2 : Nat) (cs : List Char), cs.length ≤ f1 → cs.length ≤ f2 →
    replaceAllF (a :: ps) r f1 cs = replaceAllF (a :: ps) r f2 cs
  | 0, f2, cs, h1, _ => by
    have hnil : cs = [] := List.eq_nil_of_length_eq_zero (Nat.le_zero.mp h1)
    subst hnil
    rw [replaceAllF_nil, replaceAllF_nil]
  | _ + 1, f2, [], _, _ => by rw [replaceAllF_nil, replaceAllF_nil]
  | f1 + 1, f2, c :: cs, h1, h2 => by
    obtain ⟨g, rfl⟩ : ∃ g, f2 = g + 1 := ⟨f2 - 1, by simp at h2; omega⟩
    rw [replaceAllF, replaceAllF]
    cases hf : findFirst (a :: ps) (c :: cs) with
    | none => rfl
    | some i =>
      dsimp only
      have hd : ((c :: cs).drop (i + (a :: ps).length)).length ≤ f1 ∧
          ((c :: cs).drop (i + (a :: ps).length)).length ≤ g := by
        rw [List.length_drop]
        simp only [List.length_cons] at h1 h2 ⊢
        omega
      rw [replaceAllF_irrel a ps r f1 g _ hd.1 hd.2]

/-- Replace-all skips a head position where the pattern does not
match. -/
theorem replaceAllF_cons (a : Atom) (ps : List Atom) (r : List Char) (c : Char)
    (cs : List Char) (h : matchesAt (a :: ps) (c :: cs) = false) (f1 f2 : Nat)
    (h1 : cs.length ≤ f1) (h2 : (c :: cs).length ≤ f2) :
    replaceAllF (a :: ps) r f2 (c :: cs) = c :: replaceAllF (a :: ps) r f1 cs := by
  obtain ⟨g, rfl⟩ : ∃ g, f2 = g + 1 := ⟨f2 - 1, by simp at h2; omega⟩
  rw [replaceAllF, findFirst, if_neg (by simp [h])]
  cases hf : findFirst (a :: ps) cs with
  | none =>
    simp only [Option.map_none']
    rw [replaceAllF_no_match _ _ _ hf]
  | some i =>
    simp only [Option.map_some']
    have hcs : cs ≠ [] := by
      intro hnil
      rw [hnil, findFirst_nil] at hf
      exact Option.noConfusion hf
    obtain ⟨k, rfl⟩ : ∃ k, f1 = k + 1 := by
      refine ⟨f1 - 1, ?_⟩
      cases cs with
      | nil => exact absurd rfl hcs
      | cons d ds => simp at h1; omega
    conv_rhs => rw [replaceAllF, hf]
    have hidx : i + 1 + (a :: ps).length = (i + (a :: ps).length) + 1 := by omega
    rw [List.take_succ_cons, hidx, List.drop_succ_cons]
    have hd : (cs.drop (i + (a :: ps).length)).length ≤ g ∧
        (cs.drop (i + (a :: ps).length)).length ≤ k := by
      rw [List.length_drop]
      simp only [List.length_cons] at h1 h2 ⊢
      omega
    rw [replaceAllF_irrel a ps r g k _ hd.1 hd.2]
    simp

/-- The scan with unlimited budget computes the spec-side
replace-all. -/
theorem subScanF_none (a : Atom) (ps : List Atom) (r : List Char) :
    ∀ (fuel : Nat) (cs : List Char) (f2 : Nat), cs.length ≤ fuel → cs.length ≤ f2 →
    subScanF (a :: ps) r fuel none cs = replaceAllF (a :: ps) r f2 cs
  | 0, cs, f2, h1, _ => by
    have hnil : cs = [] := List.eq_nil_of_length_eq_zero (Nat.le_zero.mp h1)
    subst hnil
    rw [replaceAllF_nil]
    rfl
  | _ + 1, [], f2, _, _ => by
    rw [replaceAllF_nil]
    rfl
  | fuel + 1, c :: cs, f2, h1, h2 => by
    by_cases hm : matchesAt (a :: ps) (c :: cs) = true
    · rw [subScanF, if_pos ⟨by simp, hm⟩]
      obtain ⟨g, rfl⟩ : ∃ g, f2 = g + 1 := ⟨f2 - 1, by simp at h2; omega⟩
      rw [replaceAllF, findFirst, if_pos hm]
      simp only [List.take_zero, List.nil_append, Nat.zero_add]
      have hd : ((c :: cs).drop (a :: ps).length).length ≤ fuel ∧
          ((c :: cs).drop (a :: ps).length).length ≤ g := by
        rw [List.length_drop]
        simp only [List.length_cons] at h1 h2
        simp only [List.length_cons]
        omega
      rw [show decBudget none = none from rfl]
      rw [subScanF_none a ps r fuel _ g hd.1 hd.2]
    · have hm' := eq_false_of_ne_true hm
      rw [subScanF, if_neg (by simp [hm'])]
      rw [subScanF_none a ps r fuel cs cs.length (by simp at h1; omega) (le_refl _)]
      rw [replaceAllF_cons a ps r c cs hm' cs.length f2 (le_refl _) h2]

/-! ### Inversion of the substitution parser -/

/-- A successfully parsed modifier has a nonempty left-hand side. -/
theorem Modifier_init_lhs {modifier_form supported_flags modifier : List Char}
    {p : List Char × List Char × List Char}
    (h : Modifier_init modifier_form supported_flags modifier = .ok p) :
    p.1 ≠ [] := by
  unfold Modifier_init at h
  dsimp only at h
  repeat' split at h
  any_goals exact Except.noConfusion h
  all_goals
    rw [← Except.ok.inj h]
    assumption

/-- A successful compile in the modeled fragment is the charwise
translation of the pattern. -/
theorem compileFragment_eq {flags l : List Char} {pat : List Atom}
    (h : compileFragment flags l = some pat) :
    pat = l.map (fun c => if c = '.' then Atom.dot else Atom.lit c) := by
  unfold compileFragment at h
  split at h
  · exact Option.noConfusion h
  · split at h
    · exact Option.noConfusion h
    · exact (Option.some_inj.mp h).symm

/-- A substitution operator produced by the parser has a nonempty
compiled pattern and its count is 0 exactly when the g flag is
present, else 1. -/
theorem S_modifier_ok {s : List Char} {m : SMod} (h : S_modifier s = .ok (some m)) :
    m.regex ≠ [] ∧ m.count = if m.modifier_flags.contains 'g' then 0 else 1 := by
  unfold S_modifier at h
  split at h
  · exact Except.noConfusion h
  · rename_i lhs rhs flags hinit
    split at h
    · exact Option.noConfusion (Except.ok.inj h)
    · rename_i pat hc
      split at h
      · exact Option.noConfusion (Except.ok.inj h)
      · have hm := Option.some_inj.mp (Except.ok.inj h)
        subst hm
        refine ⟨?_, rfl⟩
        rw [compileFragment_eq hc]
        simp only [ne_eq, List.map_eq_nil]
        exact Modifier_init_lhs hinit

/-- C1: applying a parsed substitute operator without the global flag
replaces exactly the first match of its compiled pattern, and with the
global flag replaces all non-overlapping matches; concretely s/./x/
maps field 1.1 to xield 1.1 and s/./x/g maps field 1.1 to
xxxxxxxxx. -/
theorem claim1_substitute_counts :
    (∀ (s : List Char) (m : SMod) (v : List Char),
        S_modifier s = .ok (some m) → m.modifier_flags.contains 'g' = false →
        S_call m v = replaceFirst m.regex m.repl v)
  ∧ (∀ (s : List Char) (m : SMod) (v : List Char),
        S_modifier s = .ok (some m) → m.modifier_flags.contains 'g' = true →
        S_call m v = replaceAll m.regex m.repl v)
  ∧ S_apply ("s/./x/".data) ("field 1.1".data) = some ("xield 1.1".data)
  ∧ S_apply ("s/./x/g".data) ("field 1.1".data) = some ("xxxxxxxxx".data) := by
  refine ⟨?_, ?_, by decide, by decide⟩
  · intro s m v h hg
    obtain ⟨hne, hcount⟩ := S_modifier_ok h
    rw [hg, if_neg (by simp)] at hcount
    cases hp : m.regex with
    | nil => exact absurd hp hne
    | cons a ps =>
      rw [S_call, hp, pySub, hcount, if_neg (by simp)]
      exact subScanF_one a ps m.repl v.length v (le_refl _)
  · intro s m v h hg
    obtain ⟨hne, hcount⟩ := S_modifier_ok h
    rw [hg, if_pos rfl] at hcount
    cases hp : m.regex with
    | nil => exact absurd hp hne
    | cons a ps =>
      rw [S_call, hp, pySub, hcount, if_pos rfl, replaceAll]
      exact subScanF_none a ps m.repl v.length v v.length (le_refl _) (le_refl _)

/-- C1 witness: the two general clauses of the theorem applied to the
concretely parsed operators s/./x/ and s/./x/g on the value
field 1.1. -/
theorem claim1_witness :
    S_call { regex := [Atom.dot], repl := ("x".data), modifier_flags := [], count := 1 }
        ("field 1.1".data)
      = replaceFirst [Atom.dot] ("x".data) ("field 1.1".data) ∧
    S_call { regex := [Atom.dot], repl := ("x".data), modifier_flags := ['g'], count := 0 }
        ("field 1.1".data)
      = replaceAll [Atom.dot] ("x".data) ("field 1.1".data) :=
  ⟨claim1_substitute_counts.1 ("s/./x/".data) _ _ (by decide) (by decide),
   claim1_substitute_counts.2.1 ("s/./x/g".data) _ _ (by decide) (by decide)⟩

end Csvsed
